import Mathlib

/-!
Verification of the IdeaFlow idea-indexing and retrieval engine.

This file gives a shallow embedding of the backend code of the
repository (the Python code blocks of ideaflow-spec.md: models.py,
embedding_service.py, qdrant_service.py, main.py and the phase-4
cluster/resonance endpoints) and proves or refutes the specified
properties about it.

Modelling conventions:
- Embedding vectors are lists of rationals; the external
  sentence-transformers model behind create_embedding is an arbitrary
  function parameter (written embed), since it is a neural network and
  not part of the repository.  Where a property relies on the model
  being unit-norm, that appears as an explicit hypothesis.
- The Qdrant collection is a list of points; upsert is replace-by-id.
  Qdrant ranks search results by descending cosine similarity (for the
  unit-norm vectors stored here cosine similarity is the dot product);
  ties are broken by an implementation-stable order, modelled as a
  stable sort of the stored order.
- sklearn KMeans (used by the clusters endpoint) is likewise an
  arbitrary function parameter from a cluster count and the vectors to
  one label per vector; its documented contract (labels lie in
  0..k-1, and no cluster is left empty thanks to the empty-cluster
  relocation step) appears as hypotheses.
- The SSE generator of the stream endpoint and the global
  event_queues registry are modelled as explicit state machines.
-/

/-- Embedding vectors: create_embedding returns a list of floats,
modelled as rationals. -/
abbrev Vec := List ℚ

/-- Dot product; for the unit-norm vectors produced by
model.encode(text, normalize_embeddings=True) this coincides with the
cosine similarity score Qdrant reports. -/
def dot (u v : Vec) : ℚ := (List.zipWith (fun a b => a * b) u v).sum

/-- Payload stored with every point by store_idea in
qdrant_service.py. -/
structure Payload where
  nostr_event_id : String
  pubkey : String
  created_at : Int
  references : List String
  content_preview : String
deriving DecidableEq, Repr

/-- One point of the Qdrant "ideas" collection: id, vector, payload. -/
structure Point where
  id : String
  vector : Vec
  payload : Payload
deriving DecidableEq, Repr

/-- The Qdrant collection state. -/
abbrev Store := List Point

/-- One search hit as returned by search_similar / find_related:
the Python code returns a dict with the id, the score and the payload
fields spread into it. -/
structure Hit where
  event_id : String
  score : ℚ
  payload : Payload
deriving DecidableEq, Repr

/-- client.upsert with a single PointStruct: insert-or-replace by id.
The old version of the point (if any) is dropped and the new one
inserted; no partial write is observable. -/
def upsert (store : Store) (p : Point) : Store :=
  store.filter (fun q => !(q.id == p.id)) ++ [p]

/-- store_idea of qdrant_service.py: vectorize the content and upsert
id, vector and payload together (content_preview is content[:200]). -/
def store_idea (embed : String → Vec) (store : Store) (event_id content pubkey : String)
    (created_at : Int) (references : List String) : Store :=
  upsert store
    ⟨event_id, embed content,
      ⟨event_id, pubkey, created_at, references, content.take 200⟩⟩

/-- Ranking order used by client.search: point a ranks at least as high
as point b when its similarity to the query vector is at least as
large. -/
def scoreRel (qv : Vec) (a b : Point) : Prop :=
  dot qv b.vector ≤ dot qv a.vector

instance (qv : Vec) : DecidableRel (scoreRel qv) :=
  fun a b => inferInstanceAs (Decidable (dot qv b.vector ≤ dot qv a.vector))

instance (qv : Vec) : IsTotal Point (scoreRel qv) :=
  ⟨fun a b => le_total (dot qv b.vector) (dot qv a.vector)⟩

instance (qv : Vec) : IsTrans Point (scoreRel qv) :=
  ⟨fun _ _ _ hab hbc => le_trans hbc hab⟩

/-- The candidates ordered by descending similarity (stable in stored
order, modelling the implementation-stable tie order of the store). -/
def rankByScore (qv : Vec) (l : Store) : Store :=
  l.insertionSort (scoreRel qv)

/-- Build the result dict for one hit. -/
def mkHit (qv : Vec) (p : Point) : Hit := ⟨p.id, dot qv p.vector, p.payload⟩

/-- client.search against a query vector: up to limit points by
descending similarity, each returned with id, score and payload. -/
def searchByVector (store : Store) (qv : Vec) (limit : Nat) : List Hit :=
  ((rankByScore qv store).take limit).map (mkHit qv)

/-- The optional pubkey filter of search_similar (Qdrant applies it to
the candidate set before ranking). -/
def filterByAuthor (store : Store) : Option String → Store
  | some pk => store.filter (fun p => p.payload.pubkey == pk)
  | none => store

/-- search_similar of qdrant_service.py: encode the query text and
search the (optionally author-filtered) collection. -/
def search_similar (embed : String → Vec) (store : Store) (query : String)
    (limit : Nat) (pubkey_filter : Option String) : List Hit :=
  searchByVector (filterByAuthor store pubkey_filter) (embed query) limit

/-- find_related of qdrant_service.py: retrieve the idea's own stored
vector (client.retrieve returns the first point with that id, or
nothing); if absent return [], else search limit + 1 neighbors by that
vector, drop the source id and truncate to limit. -/
def find_related (store : Store) (event_id : String) (limit : Nat) : List Hit :=
  match store.find? (fun p => p.id == event_id) with
  | none => []
  | some point =>
    ((searchByVector store point.vector (limit + 1)).filter
        (fun h => h.event_id != event_id)).take limit

/-- A parsed Nostr event as delivered by the relay subscription. -/
structure NostrEvent where
  id : String
  pubkey : String
  created_at : Int
  kind : Int
  tags : List (List String)
  content : String
  sig : String
deriving DecidableEq, Repr

/-- Reference extraction of handle_new_idea in main.py:
references = [tag[1] for tag in event.get("tags", []) if tag[0] == "e"].
The Python code indexes tag[0] and tag[1] directly (raising on shorter
tags); the model uses defaults, and the two agree on every event whose
tags all have at least two entries. -/
def extractReferences (tags : List (List String)) : List String :=
  (tags.filter (fun t => t.getD 0 "" == "e")).map (fun t => t.getD 1 "")

/-- The mutable state touched by ingestion: the Qdrant collection and
the global event_queues list of per-subscriber SSE queues. -/
structure SystemState where
  store : Store
  queues : List (List NostrEvent)
deriving DecidableEq, Repr

/-- The store after the store_idea step of handle_new_idea. -/
def ingestedStore (embed : String → Vec) (st : SystemState) (ev : NostrEvent) : Store :=
  store_idea embed st.store ev.id ev.content ev.pubkey ev.created_at
    (extractReferences ev.tags)

/-- handle_new_idea of main.py: extract references, store the idea in
Qdrant, then put the event on every subscriber queue. -/
def handle_new_idea (embed : String → Vec) (st : SystemState) (ev : NostrEvent) :
    SystemState :=
  ⟨ingestedStore embed st ev, st.queues.map (fun q => q ++ [ev])⟩

/-- The queue list after the event has been put on the first k queues
(the fan-out loop of handle_new_idea enqueues one queue at a time). -/
def putFirst (k : Nat) (e : NostrEvent) (qs : List (List NostrEvent)) :
    List (List NostrEvent) :=
  (qs.take k).map (fun q => q ++ [e]) ++ qs.drop k

/-- The sequence of states handle_new_idea passes through, one per
atomic step: the initial state, the state right after the single
client.upsert, and then one state per queue.put of the fan-out loop. -/
def handleStates (embed : String → Vec) (st : SystemState) (ev : NostrEvent) :
    List SystemState :=
  st :: (List.range (st.queues.length + 1)).map
    (fun k => ⟨ingestedStore embed st ev, putFirst k ev st.queues⟩)

/-- The arguments of one store_idea call, for reasoning about
ingestion traces. -/
structure IngestCall where
  event_id : String
  content : String
  pubkey : String
  created_at : Int
  references : List String
deriving DecidableEq, Repr

/-- Apply one store_idea call to a store. -/
def applyCall (embed : String → Vec) (store : Store) (c : IngestCall) : Store :=
  store_idea embed store c.event_id c.content c.pubkey c.created_at c.references

/-- The point a store_idea call writes: vector and payload are built
together from the same content. -/
def callPoint (embed : String → Vec) (c : IngestCall) : Point :=
  ⟨c.event_id, embed c.content,
    ⟨c.event_id, c.pubkey, c.created_at, c.references, c.content.take 200⟩⟩

/-- Interactions with the Qdrant store, for tracking which endpoints
actually query it. -/
inductive StoreOp
  | searchOp
  | retrieveOp
  | scrollOp
  | upsertOp
deriving DecidableEq, Repr

/-- search_similar always performs exactly one client.search call. -/
def searchSimilarOps : List StoreOp := [StoreOp.searchOp]

/-- The /api/search endpoint (search_ideas in main.py): it delegates to
search_similar unconditionally, so it always issues one store query. -/
def search_ideas (embed : String → Vec) (store : Store) (q : String)
    (limit : Nat) (pubkey : Option String) : List Hit × List StoreOp :=
  (search_similar embed store q limit pubkey, searchSimilarOps)

/-- Python truth test "not q.strip()": true exactly when every
character of q is whitespace (in particular for the empty string). -/
def isBlank (q : String) : Bool := q.data.all (fun c => c.isWhitespace)

/-- The prompt fragment the partial returns for a blank query. -/
def promptDiv : String :=
  "<div class=\x27text-gray-500\x27>Suchbegriff eingeben...</div>"

/-- The fragment returned when the search produced no hits. -/
def noResultsDiv : String :=
  "<div class=\x27text-gray-500\x27>Keine Ergebnisse gefunden</div>"

/-- score_percent = int(r["score"] * 100): Python int() truncates
toward zero. -/
def score_percent (s : ℚ) : Int :=
  if 0 ≤ s then ⌊s * 100⌋ else ⌈s * 100⌉

/-- The article fragment rendered for one search hit. -/
def renderCard (r : Hit) : String :=
  "<article class=\"idea-card\" hx-get=\"/components/idea-card/" ++ r.event_id ++
    "\" hx-trigger=\"click\" hx-target=\"#idea-detail\" hx-swap=\"innerHTML\">" ++
    "<p class=\"content\">" ++ r.payload.content_preview ++
    "</p><div class=\"meta\"><span class=\"score\">" ++
    toString (score_percent r.score) ++ "% Relevanz</span><span class=\"pubkey\">" ++
    r.payload.pubkey.take 8 ++ "...</span></div></article>"

/-- Join the rendered cards; an empty hit list yields the
no-results fragment. -/
def renderResults (results : List Hit) : String :=
  if results.isEmpty then noResultsDiv
  else String.intercalate "\n" (results.map renderCard)

/-- The /partials/search-results endpoint of main.py: a blank query
short-circuits to the prompt fragment without touching the store;
otherwise it runs search_similar with limit 10 and renders the hits. -/
def search_results_route (embed : String → Vec) (store : Store) (q : String) :
    String × List StoreOp :=
  if isBlank q then (promptDiv, [])
  else (renderResults (search_similar embed store q 10 none), searchSimilarOps)

/-- One member entry of a cluster as returned by /api/clusters. -/
structure ClusterEntry where
  event_id : String
  content_preview : String
deriving DecidableEq, Repr

/-- The entry built for a scanned point. -/
def pointEntry (p : Point) : ClusterEntry := ⟨p.id, p.payload.content_preview⟩

/-- Accumulate a label into the list of cluster keys if unseen;
mirrors insertion into the Python dict clusters, whose keys keep first
insertion order. -/
def labelStep (acc : List Nat) (l : Nat) : List Nat :=
  if l ∈ acc then acc else acc ++ [l]

/-- The distinct labels in first-occurrence order, i.e. the key order
of the Python clusters dict. -/
def labelKeys (ls : List Nat) : List Nat := ls.foldl labelStep []

/-- client.scroll(limit=1000) of the clusters endpoint: the first up to
1000 stored points. -/
def scanPoints (store : Store) : Store := store.take 1000

/-- n_clusters = min(5, len(points) // 3). -/
def clusterK (store : Store) : Nat := min 5 ((scanPoints store).length / 3)

/-- The labels KMeans(n_clusters, random_state=42).fit_predict assigns
to the scanned vectors; km is the external clustering function. -/
def clusterLabels (km : Nat → List Vec → List Nat) (store : Store) : List Nat :=
  km (clusterK store) ((scanPoints store).map (fun p => p.vector))

/-- The /api/clusters endpoint (get_clusters in main.py): scroll up to
1000 points; with fewer than 5 return no clusters; otherwise cluster
the vectors and group the (id, preview) entries by assigned label,
clusters listed in first-label-occurrence order and members in scan
order. -/
def get_clusters (km : Nat → List Vec → List Nat) (store : Store) :
    List (List ClusterEntry) :=
  if (scanPoints store).length < 5 then []
  else
    (labelKeys (clusterLabels km store)).map (fun c =>
      (((scanPoints store).zip (clusterLabels km store)).filter
          (fun pl => pl.2 == c)).map (fun pl => pointEntry pl.1))

/-- The resonance signal: the new idea id plus the matching prior
ideas. -/
structure Resonance where
  new_idea : String
  matching_ideas : List Hit
deriving DecidableEq, Repr

/-- The author-filtered top-3 similarity search of check_resonance
(its local variable named similar). -/
def similarHits (embed : String → Vec) (store : Store) (new_event : NostrEvent)
    (user_pubkey : String) : List Hit :=
  search_similar embed store new_event.content 3 (some user_pubkey)

/-- The hits above the resonance threshold 0.7 = mkRat 7 10
(the local variable named resonant). -/
def resonantHits (embed : String → Vec) (store : Store) (new_event : NostrEvent)
    (user_pubkey : String) : List Hit :=
  (similarHits embed store new_event user_pubkey).filter
    (fun s => mkRat 7 10 < s.score)

/-- check_resonance of main.py: search the author's own ideas (pubkey
filter) with limit 3, keep the hits whose score exceeds the 0.7
threshold, and emit a signal iff any remain. -/
def check_resonance (embed : String → Vec) (store : Store) (new_event : NostrEvent)
    (user_pubkey : String) : Option Resonance :=
  if (resonantHits embed store new_event user_pubkey).isEmpty then none
  else some ⟨new_event.id, resonantHits embed store new_event user_pubkey⟩

/-- What the SSE generator of the stream endpoint emits: a new-idea
frame or a keep-alive ping. -/
inductive StreamOutput
  | newIdea (e : NostrEvent)
  | ping
deriving DecidableEq, Repr

/-- Whether request.is_disconnected() is already true at time now
(disc is the disconnection time, if the client ever disconnects). -/
def isDisconnected (disc : Option Nat) (now : Nat) : Bool :=
  match disc with
  | none => false
  | some d => decide (d ≤ now)

/-- The event_generator loop of the stream endpoint, over a timed
trace.  arrivals lists the (time, event) pairs still to be delivered on
this subscriber's queue, in order.  Each iteration checks for
disconnection, then awaits the queue with a 30 second timeout: an event
available within the window is yielded when it arrives, otherwise a
ping is yielded when the window elapses.  fuel bounds the number of
iterations modelled. -/
def streamRun : Nat → Nat → List (Nat × NostrEvent) → Option Nat →
    List (Nat × StreamOutput)
  | 0, _, _, _ => []
  | fuel + 1, now, arrivals, disc =>
    if isDisconnected disc now then []
    else
      match arrivals with
      | [] => (now + 30, StreamOutput.ping) :: streamRun fuel (now + 30) [] disc
      | (a, e) :: rest =>
        if a ≤ now + 30 then
          (max now a, StreamOutput.newIdea e) :: streamRun fuel (max now a) rest disc
        else
          (now + 30, StreamOutput.ping) :: streamRun fuel (now + 30) arrivals disc

/-- The live fan-out registry: event_queues holds one queue per
connected subscriber.  Queues are identified by allocation order
(Python removes by object identity); contents records every queue ever
created with the events put on it. -/
structure HubState where
  nextId : Nat
  registry : List Nat
  contents : List (Nat × List NostrEvent)
deriving DecidableEq, Repr

/-- The stream endpoint on connect: queue = asyncio.Queue();
event_queues.append(queue). -/
def subscribeHub (st : HubState) : HubState :=
  ⟨st.nextId + 1, st.registry ++ [st.nextId], st.contents ++ [(st.nextId, [])]⟩

/-- The finally block of the stream endpoint when the generator
terminates: event_queues.remove(queue) removes that queue (list.remove
drops the first occurrence, matching by identity). -/
def unsubscribeHub (st : HubState) (q : Nat) : HubState :=
  ⟨st.nextId, st.registry.erase q, st.contents⟩

/-- await queue.put(event) on the queue with identity q. -/
def enqueue (cs : List (Nat × List NostrEvent)) (q : Nat) (e : NostrEvent) :
    List (Nat × List NostrEvent) :=
  cs.map (fun c => if c.1 = q then (c.1, c.2 ++ [e]) else c)

/-- The fan-out loop of handle_new_idea:
for queue in event_queues: await queue.put(event). -/
def publishHub (st : HubState) (e : NostrEvent) : HubState :=
  ⟨st.nextId, st.registry,
    st.registry.foldl (fun cs q => enqueue cs q e) st.contents⟩

/-- The hub before any subscriber connected. -/
def initHub : HubState := ⟨0, [], []⟩

/-- Hub states reachable from startup by connects, disconnects and
published events. -/
inductive Reachable : HubState → Prop
  | init : Reachable initHub
  | sub {st} : Reachable st → Reachable (subscribeHub st)
  | unsub {st} (q : Nat) : Reachable st → Reachable (unsubscribeHub st q)
  | pub {st} (e : NostrEvent) : Reachable st → Reachable (publishHub st e)

/-- Hub states reachable from a given state. -/
inductive ReachableFrom : HubState → HubState → Prop
  | refl {st} : ReachableFrom st st
  | sub {s t} : ReachableFrom s t → ReachableFrom s (subscribeHub t)
  | unsub {s t} (q : Nat) : ReachableFrom s t → ReachableFrom s (unsubscribeHub t q)
  | pub {s t} (e : NostrEvent) : ReachableFrom s t → ReachableFrom s (publishHub t e)

/-- Well-formedness of the hub registry: no queue is registered twice
and every registered identity was allocated. -/
def HubWF (st : HubState) : Prop :=
  st.registry.Nodup ∧ ∀ x ∈ st.registry, x < st.nextId

/-- Reference targets of the reference tags read off the event
tag-by-tag, in original order, duplicates retained: a well-formed
reference tag (at least two entries, first entry "e") contributes its
second entry. -/
def eTargets : List (List String) → List String
  | [] => []
  | t :: ts =>
    if 2 ≤ t.length ∧ t.getD 0 "" = "e" then t.getD 1 "" :: eTargets ts
    else eTargets ts

/-- Order-preserving deduplication keeping first occurrences. -/
def dedupFirst (l : List String) : List String :=
  l.foldl (fun acc x => if x ∈ acc then acc else acc ++ [x]) []

/-- Modelled from the claim wording of C6: the reference targets in
original order with duplicate ids removed. -/
def specReferences (tags : List (List String)) : List String :=
  dedupFirst (eTargets tags)

/-! Concrete instances used to evaluate the model on explicit inputs. -/

/-- A deterministic unit-norm toy vectorizer: every text maps to the
one-dimensional unit vector.  (dot embedC s) (embedC s) = 1 for all s. -/
def embedC : String → Vec := fun _ => [1]

/-- A deterministic unit-norm toy vectorizer distinguishing the text
"fresh" from everything else. -/
def embedW : String → Vec := fun s => if s = "fresh" then [1, 0] else [0, 1]

/-- A store holding a single idea. -/
def store1q : Store := [⟨"a", [1], ⟨"a", "alice", 0, [], "hello idea"⟩⟩]

/-- A store holding two ideas by different authors. -/
def storeW : Store :=
  [⟨"a", [1], ⟨"a", "alice", 0, [], "idea a"⟩⟩,
   ⟨"b", [1], ⟨"b", "bob", 1, [], "idea b"⟩⟩]

/-- The store after ingesting the same content "hello" twice under the
two distinct ids "a" and then "b" (same text, two events). -/
def storeC3 : Store :=
  store_idea embedC (store_idea embedC [] "a" "hello" "alice" 0 []) "b" "hello" "bob" 1 []

/-- A store of one idea orthogonal to the vector of "fresh". -/
def storeW3 : Store := [⟨"old1", [0, 1], ⟨"old1", "alice", 0, [], "old idea"⟩⟩]

/-- A store of five ideas, enough for clustering. -/
def storeW2 : Store :=
  [⟨"p1", [1], ⟨"p1", "a", 0, [], "i1"⟩⟩, ⟨"p2", [1], ⟨"p2", "b", 1, [], "i2"⟩⟩,
   ⟨"p3", [1], ⟨"p3", "c", 2, [], "i3"⟩⟩, ⟨"p4", [1], ⟨"p4", "d", 3, [], "i4"⟩⟩,
   ⟨"p5", [1], ⟨"p5", "e", 4, [], "i5"⟩⟩]

/-- A clustering function assigning every vector the label 0; it
satisfies the KMeans contract whenever the requested cluster count is
one. -/
def kmW : Nat → List Vec → List Nat := fun _ vs => vs.map (fun _ => 0)

/-- Four ideas by the same author, all with the same unit vector. -/
def store4 : Store :=
  [⟨"a", [1], ⟨"a", "alice", 0, [], "i a"⟩⟩, ⟨"b", [1], ⟨"b", "alice", 1, [], "i b"⟩⟩,
   ⟨"c", [1], ⟨"c", "alice", 2, [], "i c"⟩⟩, ⟨"d", [1], ⟨"d", "alice", 3, [], "i d"⟩⟩]

/-- A freshly ingested event by the author of store4. -/
def evC8 : NostrEvent := ⟨"new1", "alice", 9, 30023, [], "some text", "s"⟩

/-- An event whose tags reference the same idea twice. -/
def evDup : NostrEvent :=
  ⟨"n1", "alice", 0, 30023, [["e", "a"], ["e", "a"]], "idea text", "sg"⟩

/-- An event with a mix of tags, two of its three reference tags
pointing at the same target. -/
def evW6 : NostrEvent :=
  ⟨"n6", "alice", 10, 30023,
    [["t", "idea"], ["e", "a"], ["e", "b"], ["e", "a"]], "my idea", "s"⟩

/-- A plain event for fan-out examples. -/
def evW : NostrEvent := ⟨"e1", "alice", 0, 30023, [], "x", "s"⟩

/-- A system state with two connected subscriber queues. -/
def stW7 : SystemState := ⟨storeW, [[], [evW]]⟩

/-- The hub after two subscribers connected (queue identities 0, 1). -/
def hubEx : HubState := subscribeHub (subscribeHub initHub)

/-! Helper lemmas about ranking and search. -/

theorem rank_perm (qv : Vec) (l : Store) : (rankByScore qv l).Perm l :=
  List.perm_insertionSort _ l

theorem rank_sorted (qv : Vec) (l : Store) :
    List.Sorted (scoreRel qv) (rankByScore qv l) :=
  List.sorted_insertionSort _ l

theorem head_ge {qv : Vec} {l : Store} {hd : Point} {tl : Store}
    (hrank : rankByScore qv l = hd :: tl) {p : Point} (hp : p ∈ l) :
    dot qv p.vector ≤ dot qv hd.vector := by
  have hmem : p ∈ rankByScore qv l := (rank_perm qv l).mem_iff.mpr hp
  rw [hrank] at hmem
  rcases List.mem_cons.mp hmem with h | h
  · exact le_of_eq (by rw [h])
  · have hs := rank_sorted qv l
    rw [hrank] at hs
    exact (List.sorted_cons.mp hs).1 p h

theorem mem_of_searchByVector {store : Store} {qv : Vec} {limit : Nat} {h : Hit}
    (hm : h ∈ searchByVector store qv limit) : ∃ p ∈ store, h = mkHit qv p := by
  obtain ⟨p, hp, rfl⟩ := List.mem_map.mp hm
  exact ⟨p, (rank_perm qv store).subset (List.mem_of_mem_take hp), rfl⟩

theorem searchByVector_top {store : Store} {qv : Vec} {limit : Nat} {p : Point}
    (hp : p ∈ store) (hl : 0 < limit) :
    ∃ h ∈ searchByVector store qv limit, dot qv p.vector ≤ h.score := by
  cases hrank : rankByScore qv store with
  | nil =>
    exfalso
    have : p ∈ rankByScore qv store := (rank_perm qv store).mem_iff.mpr hp
    rw [hrank] at this
    exact List.not_mem_nil p this
  | cons hd tl =>
    refine ⟨mkHit qv hd, ?_, head_ge hrank hp⟩
    unfold searchByVector
    rw [hrank]
    obtain ⟨m, rfl⟩ := Nat.exists_eq_add_of_lt hl
    exact List.mem_map_of_mem _ (by simp [List.take_succ_cons])

/-! Helper lemmas about upsert and point lookup. -/

theorem mem_upsert_self (s : Store) (p : Point) : p ∈ upsert s p := by
  unfold upsert
  exact List.mem_append_right _ (List.mem_singleton_self p)

theorem mem_upsert_elim {s : Store} {p x : Point} (h : x ∈ upsert s p) :
    x = p ∨ (x ∈ s ∧ x.id ≠ p.id) := by
  unfold upsert at h
  rcases List.mem_append.mp h with h | h
  · obtain ⟨hx, hne⟩ := List.mem_filter.mp h
    refine Or.inr ⟨hx, ?_⟩
    simpa using hne
  · exact Or.inl (List.mem_singleton.mp h)

theorem find?_filter_of_imp {α : Type} {pr q : α → Bool}
    (himp : ∀ a, pr a = true → q a = true) :
    ∀ l : List α, (l.filter q).find? pr = l.find? pr := by
  intro l
  induction l with
  | nil => rfl
  | cons a l ih =>
    by_cases hq : q a = true
    · rw [List.filter_cons_of_pos hq]
      by_cases hpr : pr a = true
      · rw [List.find?_cons_of_pos _ hpr, List.find?_cons_of_pos _ hpr]
      · rw [List.find?_cons_of_neg _ hpr, List.find?_cons_of_neg _ hpr, ih]
    · have hpr : ¬ pr a = true := fun hp => hq (himp a hp)
      rw [List.filter_cons_of_neg (by simpa using hq), ih,
        List.find?_cons_of_neg _ hpr]

theorem find?_upsert (s : Store) (p : Point) (i : String) :
    (upsert s p).find? (fun q => q.id == i) =
      if p.id = i then some p else s.find? (fun q => q.id == i) := by
  unfold upsert
  rw [List.find?_append]
  by_cases hpi : p.id = i
  · subst hpi
    rw [if_pos rfl]
    have hnone : (s.filter (fun q => !(q.id == p.id))).find? (fun q => q.id == p.id) = none := by
      rw [List.find?_eq_none]
      intro x hx
      have := (List.mem_filter.mp hx).2
      simpa using this
    rw [hnone]
    simp [Option.or]
  · rw [if_neg hpi]
    have hfl : (s.filter (fun q => !(q.id == p.id))).find? (fun q => q.id == i) =
        s.find? (fun q => q.id == i) := by
      apply find?_filter_of_imp
      intro a ha
      have haid : a.id = i := by simpa using ha
      have hne : a.id ≠ p.id := by
        rw [haid]
        exact fun h => hpi h.symm
      simpa using hne
    rw [hfl]
    have hp1 : ([p] : Store).find? (fun q => q.id == i) = none := by
      rw [List.find?_eq_none]
      intro x hx
      rw [List.mem_singleton.mp hx]
      simpa using hpi
    rw [hp1]
    cases s.find? (fun q => q.id == i) with
    | some x => rfl
    | none => rfl

/-! Ingestion trace lemmas. -/

theorem find?_foldl_applyCall (embed : String → Vec) (i : String) :
    ∀ (L : List IngestCall) (s : Store),
      ((L.foldl (applyCall embed) s).find? (fun p => p.id == i)) =
        (match (L.filter (fun c => c.event_id == i)).getLast? with
         | some c => some (callPoint embed c)
         | none => s.find? (fun p => p.id == i)) := by
  intro L
  induction L with
  | nil => intro s; rfl
  | cons c L ih =>
    intro s
    have hstep : applyCall embed s c = upsert s (callPoint embed c) := rfl
    rw [List.foldl_cons, ih]
    by_cases hc : c.event_id = i
    · rw [List.filter_cons_of_pos (by simpa using hc)]
      cases hfl : (L.filter (fun c => c.event_id == i)).getLast? with
      | some c2 =>
        cases hL : L.filter (fun c => c.event_id == i) with
        | nil => rw [hL] at hfl; exact absurd hfl (by simp)
        | cons d ds =>
          rw [List.getLast?_cons_cons, ← hL, hfl]
      | none =>
        cases hL : L.filter (fun c => c.event_id == i) with
        | cons d ds => rw [hL] at hfl; exact absurd hfl (by simp)
        | nil =>
          have h1 : ([c].getLast?) = some c := rfl
          rw [h1, hstep, find?_upsert]
          have h2 : (callPoint embed c).id = i := hc
          rw [if_pos h2]
    · rw [List.filter_cons_of_neg (by simpa using hc)]
      cases hfl : (L.filter (fun c => c.event_id == i)).getLast? with
      | some c2 => rfl
      | none =>
        rw [hstep, find?_upsert]
        have h2 : (callPoint embed c).id ≠ i := hc
        rw [if_neg h2]

/-! Reference extraction lemmas. -/

theorem extract_eq_eTargets :
    ∀ tags : List (List String), (∀ t ∈ tags, 2 ≤ t.length) →
      extractReferences tags = eTargets tags := by
  intro tags
  induction tags with
  | nil => intro _; rfl
  | cons t ts ih =>
    intro h
    have ht : 2 ≤ t.length := h t (List.mem_cons_self t ts)
    have hts : ∀ u ∈ ts, 2 ≤ u.length := fun u hu => h u (List.mem_cons_of_mem t hu)
    have htail := ih hts
    by_cases ha : t.getD 0 "" = "e"
    · unfold extractReferences at htail ⊢
      rw [List.filter_cons_of_pos (by simpa using ha), List.map_cons, htail, eTargets,
        if_pos ⟨ht, ha⟩]
    · unfold extractReferences at htail ⊢
      rw [List.filter_cons_of_neg (by simpa using ha), htail, eTargets,
        if_neg (fun hcon => ha hcon.2)]

/-! Fan-out step lemmas. -/

theorem putFirst_full (e : NostrEvent) (qs : List (List NostrEvent)) :
    putFirst qs.length e qs = qs.map (fun q => q ++ [e]) := by
  unfold putFirst
  rw [List.take_length, List.drop_length, List.append_nil]

/-! Cluster grouping lemmas. -/

theorem mem_foldl_labelStep :
    ∀ (ls acc : List Nat) (x : Nat), x ∈ ls.foldl labelStep acc ↔ x ∈ acc ∨ x ∈ ls := by
  intro ls
  induction ls with
  | nil => intro acc x; simp
  | cons l ls ih =>
    intro acc x
    rw [List.foldl_cons, ih]
    unfold labelStep
    by_cases hl : l ∈ acc
    · rw [if_pos hl]
      simp only [List.mem_cons]
      constructor
      · rintro (h | h)
        · exact Or.inl h
        · exact Or.inr (Or.inr h)
      · rintro (h | rfl | h)
        · exact Or.inl h
        · exact Or.inl hl
        · exact Or.inr h
    · rw [if_neg hl]
      simp only [List.mem_append, List.mem_singleton, List.mem_cons,
        List.not_mem_nil, or_false]
      tauto

theorem nodup_foldl_labelStep :
    ∀ (ls acc : List Nat), acc.Nodup → (ls.foldl labelStep acc).Nodup := by
  intro ls
  induction ls with
  | nil => intro acc h; exact h
  | cons l ls ih =>
    intro acc h
    rw [List.foldl_cons]
    apply ih
    unfold labelStep
    by_cases hl : l ∈ acc
    · rwa [if_pos hl]
    · rw [if_neg hl]
      rw [List.nodup_append]
      exact ⟨h, List.nodup_singleton l,
        fun a ha hal => hl ((List.mem_singleton.mp hal) ▸ ha)⟩

theorem mem_labelKeys (ls : List Nat) (x : Nat) : x ∈ labelKeys ls ↔ x ∈ ls := by
  unfold labelKeys
  rw [mem_foldl_labelStep]
  simp

theorem nodup_labelKeys (ls : List Nat) : (labelKeys ls).Nodup :=
  nodup_foldl_labelStep ls [] List.nodup_nil

theorem labelKeys_length_eq {ls : List Nat} {k : Nat}
    (hlt : ∀ l ∈ ls, l < k) (hsurj : ∀ j < k, j ∈ ls) :
    (labelKeys ls).length = k := by
  have hperm : (labelKeys ls).Perm (List.range k) := by
    rw [List.perm_ext_iff_of_nodup (nodup_labelKeys ls) (List.nodup_range k)]
    intro a
    rw [mem_labelKeys, List.mem_range]
    exact ⟨fun h => hlt a h, fun h => hsurj a h⟩
  rw [hperm.length_eq, List.length_range]

theorem join_filter_key_perm {β : Type} (key : β → Nat) :
    ∀ (ks : List Nat) (zs : List β), ks.Nodup → (∀ z ∈ zs, key z ∈ ks) →
      ((ks.map (fun c => zs.filter (fun z => key z == c))).flatten).Perm zs := by
  intro ks
  induction ks with
  | nil =>
    intro zs _ hcover
    have : zs = [] := List.eq_nil_iff_forall_not_mem.mpr (fun z hz => by
      simpa using hcover z hz)
    simp [this]
  | cons c ks ih =>
    intro zs hnd hcover
    have hcks : c ∉ ks := (List.nodup_cons.mp hnd).1
    have hndks : ks.Nodup := (List.nodup_cons.mp hnd).2
    rw [List.map_cons, List.flatten_cons]
    have hmaps : ks.map (fun c2 => zs.filter (fun z => key z == c2)) =
        ks.map (fun c2 => (zs.filter (fun z => !(key z == c))).filter (fun z => key z == c2)) := by
      apply List.map_congr_left
      intro c2 hc2
      rw [List.filter_filter]
      apply (List.filter_congr ?_).symm
      intro z _
      have hne : c2 ≠ c := fun h => hcks (h ▸ hc2)
      by_cases hz : key z = c2
      · simp [hz, hne]
      · simp [hz]
    rw [hmaps]
    have hcover2 : ∀ z ∈ zs.filter (fun z => !(key z == c)), key z ∈ ks := by
      intro z hz
      obtain ⟨hzs, hzc⟩ := List.mem_filter.mp hz
      rcases List.mem_cons.mp (hcover z hzs) with h | h
      · exact absurd h (by simpa using hzc)
      · exact h
    have hrest := ih (zs.filter (fun z => !(key z == c))) hndks hcover2
    exact (hrest.append_left _).trans (List.filter_append_perm _ zs)

/-! Fan-out hub lemmas. -/

theorem hubWF_subscribe {st : HubState} (h : HubWF st) : HubWF (subscribeHub st) := by
  obtain ⟨hnd, hbound⟩ := h
  constructor
  · show (st.registry ++ [st.nextId]).Nodup
    rw [List.nodup_append]
    exact ⟨hnd, List.nodup_singleton _,
      fun a ha hax => Nat.lt_irrefl _ ((List.mem_singleton.mp hax) ▸ hbound a ha)⟩
  · intro x hx
    rcases List.mem_append.mp hx with hx | hx
    · exact Nat.lt_succ_of_lt (hbound x hx)
    · rw [List.mem_singleton.mp hx]
      exact Nat.lt_succ_self _

theorem hubWF_unsubscribe {st : HubState} (q : Nat) (h : HubWF st) :
    HubWF (unsubscribeHub st q) := by
  obtain ⟨hnd, hbound⟩ := h
  exact ⟨hnd.erase q, fun x hx => hbound x (List.mem_of_mem_erase hx)⟩

theorem hubWF_publish {st : HubState} (e : NostrEvent) (h : HubWF st) :
    HubWF (publishHub st e) := h

theorem reachable_wf {st : HubState} (h : Reachable st) : HubWF st := by
  induction h with
  | init => exact ⟨List.nodup_nil, fun x hx => absurd hx (List.not_mem_nil x)⟩
  | sub _ ih => exact hubWF_subscribe ih
  | unsub q _ ih => exact hubWF_unsubscribe q ih
  | pub e _ ih => exact hubWF_publish e ih

theorem reachableFrom_reachable {s t : HubState} (hs : Reachable s)
    (h : ReachableFrom s t) : Reachable t := by
  induction h with
  | refl => exact hs
  | sub _ ih => exact Reachable.sub ih
  | unsub q _ ih => exact Reachable.unsub q ih
  | pub e _ ih => exact Reachable.pub e ih

theorem reachableFrom_nextId_mono {s t : HubState} (h : ReachableFrom s t) :
    s.nextId ≤ t.nextId := by
  induction h with
  | refl => exact le_refl _
  | sub _ ih => exact le_trans ih (Nat.le_succ _)
  | unsub q _ ih => exact ih
  | pub e _ ih => exact ih

theorem reachableFrom_not_registered {s t : HubState} {q : Nat}
    (h : ReachableFrom s t) (hfresh : q < s.nextId) (hq : q ∉ s.registry) :
    q ∉ t.registry := by
  induction h with
  | refl => exact hq
  | @sub u hsu ih =>
    intro hmem
    have hmem2 : q ∈ u.registry ++ [u.nextId] := hmem
    rcases List.mem_append.mp hmem2 with hmem2 | hmem2
    · exact ih hmem2
    · have h1 : q = u.nextId := List.mem_singleton.mp hmem2
      have h2 : q < u.nextId := lt_of_lt_of_le hfresh (reachableFrom_nextId_mono hsu)
      rw [h1] at h2
      exact Nat.lt_irrefl _ h2
  | unsub p _ ih => exact fun hmem => ih (List.mem_of_mem_erase hmem)
  | pub e _ ih => exact ih

theorem lookup_cons (k : Nat) (v : List NostrEvent) (cs : List (Nat × List NostrEvent))
    (r : Nat) :
    List.lookup r ((k, v) :: cs) = if r = k then some v else List.lookup r cs := by
  by_cases h : r = k
  · simp [List.lookup, h]
  · simp [List.lookup, h, show (r == k) = false by simpa using h]

theorem lookup_enqueue (cs : List (Nat × List NostrEvent)) (q : Nat) (e : NostrEvent)
    (r : Nat) :
    List.lookup r (enqueue cs q e) =
      if r = q then (List.lookup r cs).map (fun l => l ++ [e]) else List.lookup r cs := by
  induction cs with
  | nil => by_cases h : r = q <;> simp [enqueue, List.lookup, h]
  | cons c cs ih =>
    obtain ⟨k, v⟩ := c
    have hstep : enqueue ((k, v) :: cs) q e =
        (if k = q then (k, v ++ [e]) else (k, v)) :: enqueue cs q e := by
      unfold enqueue
      rw [List.map_cons]
    by_cases hk : k = q
    · subst hk
      by_cases hr : r = k
      · subst hr
        simp [hstep, lookup_cons]
      · simp [hstep, lookup_cons, hr, ih]
    · by_cases hr : r = k
      · subst hr
        simp [hstep, lookup_cons, hk]
      · simp [hstep, lookup_cons, hr, hk, ih]

theorem lookup_publish_foldl (e : NostrEvent) :
    ∀ (reg : List Nat) (cs : List (Nat × List NostrEvent)) (r : Nat), reg.Nodup →
      List.lookup r (reg.foldl (fun cs q => enqueue cs q e) cs) =
        if r ∈ reg then (List.lookup r cs).map (fun l => l ++ [e])
        else List.lookup r cs := by
  intro reg
  induction reg with
  | nil => intro cs r _; simp
  | cons a reg ih =>
    intro cs r hnd
    obtain ⟨ha, hnd2⟩ := List.nodup_cons.mp hnd
    rw [List.foldl_cons, ih _ _ hnd2]
    by_cases hr : r ∈ reg
    · have hra : r ≠ a := fun h => ha (h ▸ hr)
      rw [if_pos hr, if_pos (List.mem_cons_of_mem a hr), lookup_enqueue, if_neg hra]
    · by_cases hra : r = a
      · subst hra
        rw [if_neg hr, if_pos (List.mem_cons_self r reg), lookup_enqueue, if_pos rfl]
      · rw [if_neg hr, if_neg (by simp [List.mem_cons, hra, hr]), lookup_enqueue,
          if_neg hra]

/-! The claims. -/

/-- C1: for every id x and every limit n, find_related returns the
empty list when no stored point carries id x, and in every case
returns at most n hits, none of which carries x itself. -/
theorem C1_related_excludes_self (store : Store) (x : String) (n : Nat) :
    ((∀ p ∈ store, p.id ≠ x) → find_related store x n = []) ∧
    (find_related store x n).length ≤ n ∧
    (∀ h ∈ find_related store x n, h.event_id ≠ x) := by
  refine ⟨?_, ?_, ?_⟩
  · intro habs
    have hnone : store.find? (fun p => p.id == x) = none := by
      rw [List.find?_eq_none]
      intro p hp
      simpa using habs p hp
    unfold find_related
    rw [hnone]
  · unfold find_related
    cases store.find? (fun p => p.id == x) with
    | none => simp
    | some p =>
      show (List.take n _).length ≤ n
      rw [List.length_take]
      exact min_le_left _ _
  · unfold find_related
    cases store.find? (fun p => p.id == x) with
    | none =>
      intro h hh
      exact absurd hh (List.not_mem_nil h)
    | some p =>
      intro h hh
      have hh2 := List.mem_of_mem_take hh
      have hf := (List.mem_filter.mp hh2).2
      simpa using hf

/-- C1 witness: in a concrete two-idea store, the unknown id "zz"
yields no related ideas, and the related ideas of "a" never include
"a" and respect the limit. -/
theorem C1_witness :
    (∀ p ∈ storeW, p.id ≠ "zz") ∧ find_related storeW "zz" 3 = [] ∧
    (find_related storeW "a" 2).length ≤ 2 ∧
    (∀ h ∈ find_related storeW "a" 2, h.event_id ≠ "a") :=
  ⟨by decide, (C1_related_excludes_self storeW "zz" 3).1 (by decide),
    (C1_related_excludes_self storeW "a" 2).2.1,
    (C1_related_excludes_self storeW "a" 2).2.2⟩

/-- C4: after any sequence of ingestions starting from the empty
store, the point found under an id is exactly the point built by the
last store_idea call for that id: its vector is the vectorizer applied
to that call's content and its payload stems from the same call, so
vector and payload are always replaced together and no stale vector
survives an upsert. -/
theorem C4_no_stale_vectors (embed : String → Vec) (L : List IngestCall) (i : String) :
    ((L.foldl (applyCall embed) []).find? (fun p => p.id == i)) =
      (match (L.filter (fun c => c.event_id == i)).getLast? with
       | some c => some (callPoint embed c)
       | none => none) := by
  rw [find?_foldl_applyCall]
  cases (L.filter (fun c => c.event_id == i)).getLast? with
  | some c => rfl
  | none => rfl

/-- C6 (amended): ingesting an event stores as references exactly the
targets of its reference tags in original order with duplicates
retained, together with the vector of the content and the rest of the
payload. -/
theorem C6_references_order_no_dedup (embed : String → Vec) (st : SystemState)
    (ev : NostrEvent) (h : ∀ t ∈ ev.tags, 2 ≤ t.length) :
    ((handle_new_idea embed st ev).store.find? (fun p => p.id == ev.id)) =
      some ⟨ev.id, embed ev.content,
        ⟨ev.id, ev.pubkey, ev.created_at, eTargets ev.tags, ev.content.take 200⟩⟩ := by
  have h1 : (handle_new_idea embed st ev).store =
      upsert st.store ⟨ev.id, embed ev.content,
        ⟨ev.id, ev.pubkey, ev.created_at, extractReferences ev.tags,
          ev.content.take 200⟩⟩ := rfl
  rw [h1, find?_upsert, if_pos rfl, extract_eq_eTargets ev.tags h]

/-- C6 witness: a concrete event with three reference tags, two of
them pointing at "a", stores the targets in order with the duplicate
kept. -/
theorem C6_witness :
    (∀ t ∈ evW6.tags, 2 ≤ t.length) ∧
    ((handle_new_idea embedC ⟨[], []⟩ evW6).store.find? (fun p => p.id == evW6.id)) =
      some ⟨evW6.id, embedC evW6.content,
        ⟨evW6.id, evW6.pubkey, evW6.created_at, eTargets evW6.tags,
          evW6.content.take 200⟩⟩ :=
  ⟨by decide, C6_references_order_no_dedup embedC ⟨[], []⟩ evW6 (by decide)⟩

/-- C6 counterexample: the code keeps duplicate reference targets.
Ingesting an event tagged twice with a reference to "a" stores the
references ["a", "a"], whereas the claim's deduplicated reading would
store ["a"]. -/
theorem C6_counterexample :
    ((handle_new_idea embedC ⟨[], []⟩ evDup).store.find? (fun p => p.id == "n1")).map
        (fun p => p.payload.references) = some ["a", "a"] ∧
    specReferences evDup.tags = ["a"] ∧
    (some ["a", "a"] : Option (List String)) ≠ some ["a"] :=
  ⟨by decide, by decide, by decide⟩

/-- C7: the ingestion handler passes through an explicit sequence of
atomic states; every such state is either the untouched initial state
or already contains the complete upserted idea (full vector and
payload) in the store, so the store write precedes every queue put and
no partially ingested idea is ever visible; the final state is exactly
the handler's result. -/
theorem C7_store_before_broadcast (embed : String → Vec) (st : SystemState)
    (ev : NostrEvent) :
    (handleStates embed st ev).head? = some st ∧
    (handleStates embed st ev).getLast? = some (handle_new_idea embed st ev) ∧
    (∀ s ∈ handleStates embed st ev,
      s = st ∨ s.store = (handle_new_idea embed st ev).store) := by
  refine ⟨rfl, ?_, ?_⟩
  · unfold handleStates
    rw [List.range_succ, List.map_append]
    rw [show List.map
        (fun k => (⟨ingestedStore embed st ev, putFirst k ev st.queues⟩ : SystemState))
        [st.queues.length] =
      [⟨ingestedStore embed st ev, putFirst st.queues.length ev st.queues⟩] from rfl]
    rw [← List.cons_append, List.getLast?_concat, putFirst_full]
    rfl
  · intro s hs
    rcases List.mem_cons.mp hs with rfl | hs
    · exact Or.inl rfl
    · obtain ⟨k, _, rfl⟩ := List.mem_map.mp hs
      exact Or.inr rfl

/-- C7 witness: the atomic-state property evaluated on a concrete
state with two subscriber queues. -/
theorem C7_witness :
    (handleStates embedC stW7 evW).head? = some stW7 ∧
    (handleStates embedC stW7 evW).getLast? = some (handle_new_idea embedC stW7 evW) ∧
    (∀ s ∈ handleStates embedC stW7 evW,
      s = stW7 ∨ s.store = (handle_new_idea embedC stW7 evW).store) :=
  C7_store_before_broadcast embedC stW7 evW

/-- C5 (amended): the search-results partial short-circuits a
whitespace-only query: it returns the fixed prompt fragment, issues no
store operation, and its answer does not depend on the store contents
at all. -/
theorem C5_blank_query_shortcircuit (embed : String → Vec) (store store2 : Store)
    (q : String) (h : isBlank q = true) :
    search_results_route embed store q = (promptDiv, []) ∧
    search_results_route embed store2 q = search_results_route embed store q := by
  constructor
  · unfold search_results_route
    rw [if_pos h]
  · unfold search_results_route
    rw [if_pos h, if_pos h]

/-- C5 witness: the blank query consisting of a space and a tab is
short-circuited by the partial on a concrete store. -/
theorem C5_witness :
    isBlank " \t" = true ∧
    search_results_route embedC store1q " \t" = (promptDiv, []) ∧
    search_results_route embedC [] " \t" = search_results_route embedC store1q " \t" :=
  ⟨by decide, (C5_blank_query_shortcircuit embedC store1q [] " \t" (by decide)).1,
    (C5_blank_query_shortcircuit embedC store1q [] " \t" (by decide)).2⟩

unseal Rat.mul Rat.add in
/-- C5 counterexample: the JSON /api/search endpoint does not
short-circuit.  The single-space query is whitespace-only, yet
search_ideas issues a store search and returns a non-empty result set
from a one-idea store. -/
theorem C5_counterexample :
    isBlank " " = true ∧
    (search_ideas embedC store1q " " 10 none).1 ≠ [] ∧
    (search_ideas embedC store1q " " 10 none).2 = [StoreOp.searchOp] :=
  ⟨by decide, by decide, by decide⟩

/-- C3 (amended): after ingesting an idea whose content has a
unit-norm embedding, if every other stored idea has similarity
strictly below 1 to that embedding, then searching the content with
limit 1 returns exactly one hit, namely the new id, with score
1 ≥ 0.99. -/
theorem C3_self_top_hit (embed : String → Vec) (store : Store)
    (event_id content pubkey : String) (created_at : Int) (refs : List String)
    (hunit : dot (embed content) (embed content) = 1)
    (hothers : ∀ p ∈ store, p.id ≠ event_id → dot (embed content) p.vector < 1) :
    ∃ h, search_similar embed
        (store_idea embed store event_id content pubkey created_at refs)
        content 1 none = [h] ∧
      h.event_id = event_id ∧ mkRat 99 100 ≤ h.score := by
  have hmem : callPoint embed ⟨event_id, content, pubkey, created_at, refs⟩ ∈
      upsert store (callPoint embed ⟨event_id, content, pubkey, created_at, refs⟩) :=
    mem_upsert_self _ _
  cases hrank : rankByScore (embed content)
      (upsert store (callPoint embed ⟨event_id, content, pubkey, created_at, refs⟩)) with
  | nil =>
    exfalso
    have hm := (rank_perm (embed content) _).mem_iff.mpr hmem
    rw [hrank] at hm
    exact List.not_mem_nil _ hm
  | cons hd tl =>
    have hhd_rank : hd ∈ rankByScore (embed content)
        (upsert store (callPoint embed ⟨event_id, content, pubkey, created_at, refs⟩)) := by
      rw [hrank]
      exact List.mem_cons_self hd tl
    have hhd_mem : hd ∈
        upsert store (callPoint embed ⟨event_id, content, pubkey, created_at, refs⟩) :=
      (rank_perm _ _).subset hhd_rank
    have hge : (1 : ℚ) ≤ dot (embed content) hd.vector := by
      have h0 := head_ge hrank hmem
      rwa [show dot (embed content)
          (callPoint embed ⟨event_id, content, pubkey, created_at, refs⟩).vector = 1
        from hunit] at h0
    have hd_eq : hd = callPoint embed ⟨event_id, content, pubkey, created_at, refs⟩ := by
      rcases mem_upsert_elim hhd_mem with heq | ⟨hin, hne⟩
      · exact heq
      · exact absurd hge (not_le.mpr (hothers hd hin hne))
    refine ⟨mkHit (embed content) hd, ?_, ?_, ?_⟩
    · show ((rankByScore (embed content)
          (upsert store (callPoint embed ⟨event_id, content, pubkey, created_at, refs⟩))).take 1).map
            (mkHit (embed content)) = [mkHit (embed content) hd]
      rw [hrank]
      rfl
    · rw [hd_eq]
      rfl
    · show mkRat 99 100 ≤ dot (embed content) hd.vector
      refine le_trans ?_ hge
      norm_num [Rat.mkRat_eq_div]

unseal Rat.mul Rat.add in
/-- C3 witness: ingesting the content "fresh" (unit embedding
orthogonal to the one stored idea) makes it the unique top hit of a
limit-1 search for that content, with score at least 0.99. -/
theorem C3_witness :
    ∃ h, search_similar embedW (store_idea embedW storeW3 "n1" "fresh" "bob" 5 [])
        "fresh" 1 none = [h] ∧
      h.event_id = "n1" ∧ mkRat 99 100 ≤ h.score :=
  C3_self_top_hit embedW storeW3 "n1" "fresh" "bob" 5 [] (by decide) (by decide)

unseal Rat.mul Rat.add in
/-- C3 counterexample: with the deterministic unit-norm vectorizer
embedC, ingest the content "hello" under id "a" and then the same
content under id "b".  Both stored vectors tie at similarity 1 with
the re-encoded query, and the limit-1 search for "hello" immediately
after ingesting "b" returns "a", not "b": the freshly ingested idea is
not the top hit. -/
theorem C3_counterexample :
    (search_similar embedC storeC3 "hello" 1 none).map (fun h => h.event_id) = ["a"] ∧
    ("a" : String) ≠ "b" ∧
    dot (embedC "hello") (embedC "hello") = 1 :=
  ⟨by decide, by decide, by decide⟩

/-- C2: under the KMeans contract for the scanned vectors (one label
per vector, labels below the requested count k = min 5 (n / 3), and
no empty cluster when the count is feasible), get_clusters returns []
whenever fewer than 5 ideas are stored, and for n ≥ 5 scanned ideas
returns exactly k clusters, between 1 and 5 of them, whose members
form a permutation of the scanned ideas — every scanned idea appears
in exactly one cluster. -/
theorem C2_cluster_partition (km : Nat → List Vec → List Nat) (store : Store)
    (h1 : (clusterLabels km store).length = (scanPoints store).length)
    (h2 : ∀ l ∈ clusterLabels km store, l < clusterK store)
    (h3 : 5 ≤ (scanPoints store).length →
      ∀ j < clusterK store, j ∈ clusterLabels km store) :
    (store.length < 5 → get_clusters km store = []) ∧
    (5 ≤ (scanPoints store).length →
      (get_clusters km store).length = clusterK store ∧
      1 ≤ (get_clusters km store).length ∧ (get_clusters km store).length ≤ 5 ∧
      ((get_clusters km store).flatten).Perm ((scanPoints store).map pointEntry)) := by
  constructor
  · intro hlt
    have hsc : (scanPoints store).length < 5 := by
      unfold scanPoints
      rw [List.length_take]
      exact lt_of_le_of_lt (min_le_right _ _) hlt
    unfold get_clusters
    rw [if_pos hsc]
  · intro hge
    have hnotlt : ¬ (scanPoints store).length < 5 := not_lt.mpr hge
    have hkge : 1 ≤ clusterK store := by
      unfold clusterK
      refine le_min (by norm_num) ?_
      rw [Nat.one_le_div_iff (by norm_num)]
      omega
    have hkle : clusterK store ≤ 5 := min_le_left _ _
    have hctLen : (get_clusters km store).length = clusterK store := by
      unfold get_clusters
      rw [if_neg hnotlt, List.length_map]
      exact labelKeys_length_eq h2 (h3 hge)
    refine ⟨hctLen, ?_, ?_, ?_⟩
    · rw [hctLen]
      exact hkge
    · rw [hctLen]
      exact hkle
    · unfold get_clusters
      rw [if_neg hnotlt]
      have hform : (labelKeys (clusterLabels km store)).map (fun c =>
          (((scanPoints store).zip (clusterLabels km store)).filter
            (fun pl => pl.2 == c)).map (fun pl => pointEntry pl.1)) =
          ((labelKeys (clusterLabels km store)).map (fun c =>
            ((scanPoints store).zip (clusterLabels km store)).filter
              (fun pl => pl.2 == c))).map (List.map (fun pl => pointEntry pl.1)) := by
        rw [List.map_map]
        rfl
      rw [hform, ← List.map_flatten]
      have hcover : ∀ z ∈ (scanPoints store).zip (clusterLabels km store),
          (fun pl : Point × Nat => pl.2) z ∈ labelKeys (clusterLabels km store) := by
        rintro ⟨p, l⟩ hz
        rw [mem_labelKeys]
        exact (List.of_mem_zip hz).2
      have hperm := join_filter_key_perm (fun pl : Point × Nat => pl.2)
        (labelKeys (clusterLabels km store))
        ((scanPoints store).zip (clusterLabels km store))
        (nodup_labelKeys _) hcover
      refine (hperm.map (fun pl : Point × Nat => pointEntry pl.1)).trans ?_
      have h5 : ((scanPoints store).zip (clusterLabels km store)).map
          (fun pl => pointEntry pl.1) =
          (((scanPoints store).zip (clusterLabels km store)).map Prod.fst).map
            pointEntry := by
        rw [List.map_map]
        rfl
      rw [h5, List.map_fst_zip _ _ (le_of_eq h1.symm)]

/-- C2 witness: a five-idea store with a clustering function that
labels everything 0 satisfies the KMeans contract (the requested count
is 1) and yields exactly one cluster containing every scanned idea
once. -/
theorem C2_witness :
    (clusterLabels kmW storeW2).length = (scanPoints storeW2).length ∧
    (∀ l ∈ clusterLabels kmW storeW2, l < clusterK storeW2) ∧
    (5 ≤ (scanPoints storeW2).length →
      ∀ j < clusterK storeW2, j ∈ clusterLabels kmW storeW2) ∧
    (5 ≤ (scanPoints storeW2).length →
      (get_clusters kmW storeW2).length = clusterK storeW2 ∧
      1 ≤ (get_clusters kmW storeW2).length ∧ (get_clusters kmW storeW2).length ≤ 5 ∧
      ((get_clusters kmW storeW2).flatten).Perm ((scanPoints storeW2).map pointEntry)) :=
  ⟨by decide, by decide, by decide,
    (C2_cluster_partition kmW storeW2 (by decide) (by decide) (by decide)).2⟩

/-- C8 (amended): the resonance check emits a signal if and only if
some stored idea of the author scores strictly above 0.7 against the
new content; the signal carries the new idea's id and the
above-threshold hits among the at most 3 nearest author ideas — every
carried match scores above 0.7 and corresponds to a stored idea of
the author, but at most 3 matches are carried. -/
theorem C8_resonance (embed : String → Vec) (store : Store) (ev : NostrEvent)
    (pk : String) :
    ((check_resonance embed store ev pk).isSome ↔
      ∃ p ∈ store, p.payload.pubkey = pk ∧
        mkRat 7 10 < dot (embed ev.content) p.vector) ∧
    (∀ r, check_resonance embed store ev pk = some r →
      r.new_idea = ev.id ∧ r.matching_ideas.length ≤ 3 ∧
      (∀ m ∈ r.matching_ideas, mkRat 7 10 < m.score ∧
        ∃ p ∈ store, p.payload.pubkey = pk ∧ m.event_id = p.id ∧
          m.score = dot (embed ev.content) p.vector)) := by
  have hcheck : check_resonance embed store ev pk =
      (if (resonantHits embed store ev pk).isEmpty then none
       else some ⟨ev.id, resonantHits embed store ev pk⟩) := rfl
  have hmatch : ∀ m ∈ resonantHits embed store ev pk,
      mkRat 7 10 < m.score ∧
      ∃ p ∈ store, p.payload.pubkey = pk ∧ m.event_id = p.id ∧
        m.score = dot (embed ev.content) p.vector := by
    intro m hm
    obtain ⟨hms, hmp⟩ := List.mem_filter.mp hm
    have hms2 : m ∈ searchByVector (store.filter (fun p => p.payload.pubkey == pk))
        (embed ev.content) 3 := hms
    obtain ⟨p, hp, rfl⟩ := mem_of_searchByVector hms2
    obtain ⟨hps, hppk⟩ := List.mem_filter.mp hp
    exact ⟨by simpa using hmp, p, hps, by simpa using hppk, rfl, rfl⟩
  constructor
  · constructor
    · intro hs
      rw [hcheck] at hs
      by_cases hE : (resonantHits embed store ev pk).isEmpty
      · rw [if_pos hE] at hs
        exact absurd hs (by simp)
      · obtain ⟨m, hm⟩ := List.exists_mem_of_ne_nil _
          (fun hnil => hE (List.isEmpty_iff.mpr hnil))
        obtain ⟨hlt, p, hps, hppk, _, hscore⟩ := hmatch m hm
        exact ⟨p, hps, hppk, hscore ▸ hlt⟩
    · rintro ⟨p, hp, hpk, hscore⟩
      rw [hcheck]
      have hpF : p ∈ store.filter (fun p => p.payload.pubkey == pk) :=
        List.mem_filter.mpr ⟨hp, by simpa using hpk⟩
      obtain ⟨h0, hh0, hge⟩ := @searchByVector_top
        (store.filter (fun p => p.payload.pubkey == pk)) (embed ev.content) 3 p
        hpF (by norm_num)
      have hh0R : h0 ∈ resonantHits embed store ev pk := by
        refine List.mem_filter.mpr ⟨hh0, ?_⟩
        simpa using lt_of_lt_of_le hscore hge
      have hne : ¬ (resonantHits embed store ev pk).isEmpty = true := by
        rw [List.isEmpty_iff]
        intro hnil
        rw [hnil] at hh0R
        exact List.not_mem_nil _ hh0R
      rw [if_neg hne]
      simp
  · intro r hr
    rw [hcheck] at hr
    by_cases hE : (resonantHits embed store ev pk).isEmpty
    · rw [if_pos hE] at hr
      exact absurd hr (by simp)
    · rw [if_neg hE] at hr
      have hr2 : (⟨ev.id, resonantHits embed store ev pk⟩ : Resonance) = r :=
        Option.some.inj hr
      subst hr2
      refine ⟨rfl, ?_, hmatch⟩
      have hsim : (similarHits embed store ev pk).length ≤ 3 := by
        show (((rankByScore _ _).take 3).map _).length ≤ 3
        rw [List.length_map, List.length_take]
        exact min_le_left _ _
      exact le_trans (List.length_filter_le _ _) hsim

unseal Rat.mul Rat.add in
/-- C8 witness: on the four-idea store of one author, the resonance
check fires (the iff and the match-shape properties instantiated and
provable on this concrete input). -/
theorem C8_witness :
    ((check_resonance embedC store4 evC8 "alice").isSome ↔
      ∃ p ∈ store4, p.payload.pubkey = "alice" ∧
        mkRat 7 10 < dot (embedC evC8.content) p.vector) ∧
    (∀ r, check_resonance embedC store4 evC8 "alice" = some r →
      r.new_idea = evC8.id ∧ r.matching_ideas.length ≤ 3 ∧
      (∀ m ∈ r.matching_ideas, mkRat 7 10 < m.score ∧
        ∃ p ∈ store4, p.payload.pubkey = "alice" ∧ m.event_id = p.id ∧
          m.score = dot (embedC evC8.content) p.vector)) :=
  C8_resonance embedC store4 evC8 "alice"

unseal Rat.mul Rat.add in
/-- C8 counterexample: with four author ideas all at similarity 1 to
the new content, the emitted signal carries only 3 matches; the stored
idea "d" scores above 0.7 and belongs to the author, yet appears in no
carried match, so the signal does not carry all matching prior
ideas. -/
theorem C8_counterexample :
    ((check_resonance embedC store4 evC8 "alice").map
        (fun r => r.matching_ideas.length)) = some 3 ∧
    ((check_resonance embedC store4 evC8 "alice").map
        (fun r => r.matching_ideas.all (fun m => m.event_id != "d"))) = some true ∧
    (⟨"d", [1], ⟨"d", "alice", 3, [], "i d"⟩⟩ : Point) ∈ store4 ∧
    mkRat 7 10 < dot (embedC evC8.content) [1] :=
  ⟨by decide, by decide, by decide, by decide⟩

/-- C9 step: a connected subscriber whose queue receives nothing
during the 30 second window gets a ping at the end of the window and
the generator keeps running from there (it is not closed). -/
theorem streamRun_idle_step (fuel now : Nat) (arrivals : List (Nat × NostrEvent))
    (disc : Option Nat) (hconn : isDisconnected disc now = false)
    (hidle : ∀ a ∈ arrivals, now + 30 < a.1) :
    streamRun (fuel + 1) now arrivals disc =
      (now + 30, StreamOutput.ping) :: streamRun fuel (now + 30) arrivals disc := by
  cases arrivals with
  | nil =>
    show (if isDisconnected disc now then [] else _) = _
    rw [if_neg (by simp [hconn])]
  | cons a rest =>
    obtain ⟨t, e⟩ := a
    have ht : now + 30 < t := hidle (t, e) (List.mem_cons_self _ _)
    show (if isDisconnected disc now then []
      else if t ≤ now + 30 then
        (max now t, StreamOutput.newIdea e) :: streamRun fuel (max now t) rest disc
      else (now + 30, StreamOutput.ping) ::
        streamRun fuel (now + 30) ((t, e) :: rest) disc) = _
    rw [if_neg (by simp [hconn]), if_neg (by omega)]

/-- C9: a connected subscriber with no event throughout a 30 second
idle window receives a keep-alive ping instead of a connection drop,
and the stream continues; still idle and connected through the next
window, it receives another ping — one per idle window. -/
theorem C9_keepalive (fuel now : Nat) (arrivals : List (Nat × NostrEvent))
    (disc : Option Nat) (h1 : isDisconnected disc now = false)
    (hidle : ∀ a ∈ arrivals, now + 30 < a.1) :
    streamRun (fuel + 1) now arrivals disc =
      (now + 30, StreamOutput.ping) :: streamRun fuel (now + 30) arrivals disc ∧
    (isDisconnected disc (now + 30) = false →
      (∀ a ∈ arrivals, now + 60 < a.1) →
      streamRun (fuel + 2) now arrivals disc =
        (now + 30, StreamOutput.ping) :: (now + 60, StreamOutput.ping) ::
          streamRun fuel (now + 60) arrivals disc) := by
  refine ⟨streamRun_idle_step fuel now arrivals disc h1 hidle, ?_⟩
  intro h2 hidle2
  have e1 := streamRun_idle_step (fuel + 1) now arrivals disc h1 hidle
  have e2 := streamRun_idle_step fuel (now + 30) arrivals disc h2
    (fun a ha => by have := hidle2 a ha; omega)
  have hsum : now + 30 + 30 = now + 60 := by omega
  rw [show fuel + 2 = (fuel + 1) + 1 from rfl, e1, e2, hsum]

/-- C9 witness: with one event due only at time 100, the stream
starting at time 0 pings at 30 and again at 60. -/
theorem C9_witness :
    isDisconnected none 0 = false ∧
    (∀ a ∈ [((100 : Nat), evW)], 0 + 30 < a.1) ∧
    streamRun (1 + 1) 0 [(100, evW)] none =
      (0 + 30, StreamOutput.ping) :: streamRun 1 (0 + 30) [(100, evW)] none ∧
    (isDisconnected none (0 + 30) = false →
      (∀ a ∈ [((100 : Nat), evW)], 0 + 60 < a.1) →
      streamRun (1 + 2) 0 [(100, evW)] none =
        (0 + 30, StreamOutput.ping) :: (0 + 60, StreamOutput.ping) ::
          streamRun 1 (0 + 60) [(100, evW)] none) :=
  ⟨rfl, by decide, (C9_keepalive 1 0 [(100, evW)] none rfl (by decide)).1,
    (C9_keepalive 1 0 [(100, evW)] none rfl (by decide)).2⟩

/-- C10: from any reachable hub state, once a registered subscriber's
stream terminates (its queue is erased from event_queues), the queue
stays unregistered in every later reachable state, and every event
published in any such state is appended exactly once to the queue of
each still-registered subscriber and never to the departed
subscriber's queue. -/
theorem C10_departed_queue_isolated (st : HubState) (q : Nat) (e : NostrEvent)
    (hre : Reachable st) (hq : q ∈ st.registry) (st2 : HubState)
    (hrf : ReachableFrom (unsubscribeHub st q) st2) :
    q ∉ st2.registry ∧
    List.lookup q (publishHub st2 e).contents = List.lookup q st2.contents ∧
    (∀ r ∈ st2.registry,
      List.lookup r (publishHub st2 e).contents =
        (List.lookup r st2.contents).map (fun l => l ++ [e])) := by
  obtain ⟨hnd, hbound⟩ := reachable_wf hre
  have hfresh : q < st.nextId := hbound q hq
  have hnotreg : q ∉ (unsubscribeHub st q).registry := hnd.not_mem_erase
  have hq2 : q ∉ st2.registry := reachableFrom_not_registered hrf hfresh hnotreg
  have hre2 : Reachable st2 := reachableFrom_reachable (Reachable.unsub q hre) hrf
  obtain ⟨hnd2, _⟩ := reachable_wf hre2
  refine ⟨hq2, ?_, ?_⟩
  · show List.lookup q
        (st2.registry.foldl (fun cs p => enqueue cs p e) st2.contents) = _
    rw [lookup_publish_foldl e st2.registry st2.contents q hnd2, if_neg hq2]
  · intro r hr
    show List.lookup r
        (st2.registry.foldl (fun cs p => enqueue cs p e) st2.contents) = _
    rw [lookup_publish_foldl e st2.registry st2.contents r hnd2, if_pos hr]

/-- C10 witness: with two subscribers 0 and 1, after 0 disconnects a
published event lands exactly once on queue 1 and never on queue 0. -/
theorem C10_witness :
    0 ∈ hubEx.registry ∧
    0 ∉ (unsubscribeHub hubEx 0).registry ∧
    List.lookup 0 (publishHub (unsubscribeHub hubEx 0) evW).contents =
      List.lookup 0 (unsubscribeHub hubEx 0).contents ∧
    (∀ r ∈ (unsubscribeHub hubEx 0).registry,
      List.lookup r (publishHub (unsubscribeHub hubEx 0) evW).contents =
        (List.lookup r (unsubscribeHub hubEx 0).contents).map (fun l => l ++ [evW])) :=
  ⟨by decide,
    (C10_departed_queue_isolated hubEx 0 evW
      (Reachable.sub (Reachable.sub Reachable.init)) (by decide) _
      ReachableFrom.refl).1,
    (C10_departed_queue_isolated hubEx 0 evW
      (Reachable.sub (Reachable.sub Reachable.init)) (by decide) _
      ReachableFrom.refl).2.1,
    (C10_departed_queue_isolated hubEx 0 evW
      (Reachable.sub (Reachable.sub Reachable.init)) (by decide) _
      ReachableFrom.refl).2.2⟩
